import Mathlib

/-!
Shallow embedding of the arboriter-mcts search engine (Rust sources in
`src/`).  The `u64` counters of `tree.rs` are modelled as naturals with
wrap-around modulo `2^64` (the semantics of `AtomicU64::fetch_add`);
`f64` reward arithmetic is modelled exactly over the rationals, and the
transcendental functions `sqrt` and `ln` used by the selection formulas
are abstracted as rational-valued parameters.  The `f64` values
produced by the selection formulas, which the source compares against
`f64::INFINITY` and `f64::NEG_INFINITY`, are modelled by the extended
type `XRat` below.
-/

set_option maxHeartbeats 1000000

/-- Wrap-around modulus of the `u64` statistic counters. -/
def u64Mod : ℕ := 2 ^ 64

/-- Largest `u64` value (`u64::MAX`). -/
def u64Max : ℕ := 2 ^ 64 - 1

/-- `REWARD_SCALE` from `tree.rs`. -/
def rewardScale : ℚ := 1000000

/-- `float_to_scaled_u64` from `tree.rs`:
`((value * REWARD_SCALE).max(0.0) as u64).min(u64::MAX / 2)`.
The `as u64` cast truncates toward zero (a floor, once negative inputs
are clamped to `0.0` by `max`) and saturates at `u64::MAX`, which the
outer `min` collapses to `u64::MAX / 2` in either case. -/
def float_to_scaled_u64 (value : ℚ) : ℕ :=
  min ⌊max (value * rewardScale) 0⌋.toNat (u64Max / 2)

/-- `scaled_u64_to_float` from `tree.rs`. -/
def scaled_u64_to_float (value : ℕ) : ℚ :=
  (value : ℚ) / rewardScale

/-- The `GameState` trait of `game_state.rs`, together with the
`Action::id` method, collected as explicit function fields. -/
structure GameIface (S A P : Type) where
  legalActions : S → List A
  applyAction : S → A → S
  isTerminal : S → Bool
  currentPlayer : S → P
  actionId : A → ℕ

/-- The five atomic statistic counters of `MCTSNode` (`tree.rs`). -/
structure StatCounters where
  visits : ℕ
  totalReward : ℕ
  sumSquaredReward : ℕ
  raveVisits : ℕ
  raveReward : ℕ
deriving DecidableEq, Repr

/-- The all-zero counters of a fresh node. -/
def StatCounters.zero : StatCounters := ⟨0, 0, 0, 0, 0⟩

/-- A node of the search tree (`MCTSNode` in `tree.rs`).  The five
atomic counters are grouped into `StatCounters`; the `prior` counter is
kept separately and stored in the same fixed-point encoding. -/
inductive MCTSNode (S A P : Type) : Type where
  | mk (state : S) (action : Option A) (stats : StatCounters) (prior : ℕ)
      (children : List (MCTSNode S A P)) (unexpandedActions : List A)
      (depth : ℕ) (player : P) : MCTSNode S A P

namespace MCTSNode

variable {S A P : Type}

def state : MCTSNode S A P → S
  | .mk s _ _ _ _ _ _ _ => s

def action : MCTSNode S A P → Option A
  | .mk _ a _ _ _ _ _ _ => a

def stats : MCTSNode S A P → StatCounters
  | .mk _ _ st _ _ _ _ _ => st

def priorScaled : MCTSNode S A P → ℕ
  | .mk _ _ _ p _ _ _ _ => p

def children : MCTSNode S A P → List (MCTSNode S A P)
  | .mk _ _ _ _ c _ _ _ => c

def unexpandedActions : MCTSNode S A P → List A
  | .mk _ _ _ _ _ u _ _ => u

def depth : MCTSNode S A P → ℕ
  | .mk _ _ _ _ _ _ d _ => d

def player : MCTSNode S A P → P
  | .mk _ _ _ _ _ _ _ p => p

/-- Replace the statistic counters, keeping every other field. -/
def withStats (n : MCTSNode S A P) (st : StatCounters) : MCTSNode S A P :=
  match n with
  | .mk s a _ p c u d pl => .mk s a st p c u d pl

/-- Replace the children list, keeping every other field. -/
def withChildren (n : MCTSNode S A P) (c : List (MCTSNode S A P)) : MCTSNode S A P :=
  match n with
  | .mk s a st p _ u d pl => .mk s a st p c u d pl

/-- Replace children and unexpanded actions, keeping every other field. -/
def withChildrenUnexpanded (n : MCTSNode S A P) (c : List (MCTSNode S A P))
    (u : List A) : MCTSNode S A P :=
  match n with
  | .mk s a st p _ _ d pl => .mk s a st p c u d pl

@[simp] theorem state_mk (s : S) (a : Option A) (st : StatCounters) (p : ℕ)
    (c : List (MCTSNode S A P)) (u : List A) (d : ℕ) (pl : P) :
    (MCTSNode.mk s a st p c u d pl).state = s := rfl

@[simp] theorem action_mk (s : S) (a : Option A) (st : StatCounters) (p : ℕ)
    (c : List (MCTSNode S A P)) (u : List A) (d : ℕ) (pl : P) :
    (MCTSNode.mk s a st p c u d pl).action = a := rfl

@[simp] theorem stats_mk (s : S) (a : Option A) (st : StatCounters) (p : ℕ)
    (c : List (MCTSNode S A P)) (u : List A) (d : ℕ) (pl : P) :
    (MCTSNode.mk s a st p c u d pl).stats = st := rfl

@[simp] theorem priorScaled_mk (s : S) (a : Option A) (st : StatCounters) (p : ℕ)
    (c : List (MCTSNode S A P)) (u : List A) (d : ℕ) (pl : P) :
    (MCTSNode.mk s a st p c u d pl).priorScaled = p := rfl

@[simp] theorem children_mk (s : S) (a : Option A) (st : StatCounters) (p : ℕ)
    (c : List (MCTSNode S A P)) (u : List A) (d : ℕ) (pl : P) :
    (MCTSNode.mk s a st p c u d pl).children = c := rfl

@[simp] theorem unexpandedActions_mk (s : S) (a : Option A) (st : StatCounters) (p : ℕ)
    (c : List (MCTSNode S A P)) (u : List A) (d : ℕ) (pl : P) :
    (MCTSNode.mk s a st p c u d pl).unexpandedActions = u := rfl

@[simp] theorem depth_mk (s : S) (a : Option A) (st : StatCounters) (p : ℕ)
    (c : List (MCTSNode S A P)) (u : List A) (d : ℕ) (pl : P) :
    (MCTSNode.mk s a st p c u d pl).depth = d := rfl

@[simp] theorem player_mk (s : S) (a : Option A) (st : StatCounters) (p : ℕ)
    (c : List (MCTSNode S A P)) (u : List A) (d : ℕ) (pl : P) :
    (MCTSNode.mk s a st p c u d pl).player = pl := rfl

@[simp] theorem withStats_state (n : MCTSNode S A P) (st : StatCounters) :
    (n.withStats st).state = n.state := by cases n; rfl

@[simp] theorem withStats_action (n : MCTSNode S A P) (st : StatCounters) :
    (n.withStats st).action = n.action := by cases n; rfl

@[simp] theorem withStats_stats (n : MCTSNode S A P) (st : StatCounters) :
    (n.withStats st).stats = st := by cases n; rfl

@[simp] theorem withStats_children (n : MCTSNode S A P) (st : StatCounters) :
    (n.withStats st).children = n.children := by cases n; rfl

@[simp] theorem withStats_unexpandedActions (n : MCTSNode S A P) (st : StatCounters) :
    (n.withStats st).unexpandedActions = n.unexpandedActions := by cases n; rfl

@[simp] theorem withChildren_children (n : MCTSNode S A P) (c : List (MCTSNode S A P)) :
    (n.withChildren c).children = c := by cases n; rfl

@[simp] theorem withChildren_action (n : MCTSNode S A P) (c : List (MCTSNode S A P)) :
    (n.withChildren c).action = n.action := by cases n; rfl

@[simp] theorem withChildren_unexpandedActions (n : MCTSNode S A P)
    (c : List (MCTSNode S A P)) :
    (n.withChildren c).unexpandedActions = n.unexpandedActions := by cases n; rfl

@[simp] theorem withChildren_stats (n : MCTSNode S A P) (c : List (MCTSNode S A P)) :
    (n.withChildren c).stats = n.stats := by cases n; rfl

@[simp] theorem withChildrenUnexpanded_children (n : MCTSNode S A P)
    (c : List (MCTSNode S A P)) (u : List A) :
    (n.withChildrenUnexpanded c u).children = c := by cases n; rfl

@[simp] theorem withChildrenUnexpanded_unexpandedActions (n : MCTSNode S A P)
    (c : List (MCTSNode S A P)) (u : List A) :
    (n.withChildrenUnexpanded c u).unexpandedActions = u := by cases n; rfl

@[simp] theorem withChildrenUnexpanded_action (n : MCTSNode S A P)
    (c : List (MCTSNode S A P)) (u : List A) :
    (n.withChildrenUnexpanded c u).action = n.action := by cases n; rfl

@[simp] theorem withChildrenUnexpanded_stats (n : MCTSNode S A P)
    (c : List (MCTSNode S A P)) (u : List A) :
    (n.withChildrenUnexpanded c u).stats = n.stats := by cases n; rfl

/-- `MCTSNode::new` from `tree.rs`: the player defaults to the state's
current player and the legal actions are snapshotted into
`unexpanded_actions`; all counters start at zero and the prior at the
fixed-point encoding of `1.0`. -/
def new (g : GameIface S A P) (state : S) (action : Option A)
    (parentPlayer : Option P) (depth : ℕ) : MCTSNode S A P :=
  .mk state action StatCounters.zero (float_to_scaled_u64 1) []
    (g.legalActions state) depth (parentPlayer.getD (g.currentPlayer state))

/-- `MCTSNode::visits`. -/
def visits (n : MCTSNode S A P) : ℕ := n.stats.visits

/-- `MCTSNode::total_reward` (decoded to a rational). -/
def total_reward (n : MCTSNode S A P) : ℚ := scaled_u64_to_float n.stats.totalReward

/-- `MCTSNode::prior` (decoded to a rational). -/
def prior (n : MCTSNode S A P) : ℚ := scaled_u64_to_float n.priorScaled

/-- `MCTSNode::value`: the average reward, `0.0` for an unvisited node. -/
def value (n : MCTSNode S A P) : ℚ :=
  if n.visits = 0 then 0 else n.total_reward / (n.visits : ℚ)

/-- `MCTSNode::sum_squared_reward` (decoded to a rational). -/
def sum_squared_reward (n : MCTSNode S A P) : ℚ :=
  scaled_u64_to_float n.stats.sumSquaredReward

/-- `MCTSNode::increment_visits` (`fetch_add(1)` wraps modulo `2^64`). -/
def increment_visits (n : MCTSNode S A P) : MCTSNode S A P :=
  n.withStats { n.stats with visits := (n.stats.visits + 1) % u64Mod }

/-- `MCTSNode::add_reward`. -/
def add_reward (n : MCTSNode S A P) (reward : ℚ) : MCTSNode S A P :=
  n.withStats
    { n.stats with
      totalReward := (n.stats.totalReward + float_to_scaled_u64 reward) % u64Mod }

/-- `MCTSNode::add_squared_reward`. -/
def add_squared_reward (n : MCTSNode S A P) (reward : ℚ) : MCTSNode S A P :=
  n.withStats
    { n.stats with
      sumSquaredReward :=
        (n.stats.sumSquaredReward + float_to_scaled_u64 (reward * reward)) % u64Mod }

/-- `MCTSNode::increment_rave_visits`. -/
def increment_rave_visits (n : MCTSNode S A P) : MCTSNode S A P :=
  n.withStats { n.stats with raveVisits := (n.stats.raveVisits + 1) % u64Mod }

/-- `MCTSNode::add_rave_reward`. -/
def add_rave_reward (n : MCTSNode S A P) (reward : ℚ) : MCTSNode S A P :=
  n.withStats
    { n.stats with
      raveReward := (n.stats.raveReward + float_to_scaled_u64 reward) % u64Mod }

/-- `MCTSNode::is_fully_expanded`. -/
def is_fully_expanded (n : MCTSNode S A P) : Bool := n.unexpandedActions.isEmpty

/-- `MCTSNode::is_leaf`. -/
def is_leaf (n : MCTSNode S A P) : Bool := n.children.isEmpty

end MCTSNode

/-- `Vec::swap_remove(i)`: overwrite position `i` with the last element
and pop the last element.  Callers in the source guard `i < length`;
on an empty list this returns the list unchanged. -/
def swapRemove {α : Type} (l : List α) (i : ℕ) : List α :=
  match l.getLast? with
  | none => l
  | some last => (l.set i last).dropLast

namespace MCTSNode

variable {S A P : Type}

/-- `MCTSNode::expand` from `tree.rs`: with `action_index` in bounds,
swap-remove that action, apply it to this node's state, create the
child at `depth + 1` and append it to `children`; out of bounds returns
`None` (`unexpanded_actions.get?` is `none` exactly when
`action_index >= unexpanded_actions.len()`).  The returned node is the
updated parent (the source returns a mutable borrow of the appended
child instead). -/
def expand (g : GameIface S A P) (n : MCTSNode S A P) (actionIndex : ℕ) :
    Option (MCTSNode S A P) :=
  match n.unexpandedActions.get? actionIndex with
  | none => none
  | some action =>
    let nextState := g.applyAction n.state action
    let currentPlayer := g.currentPlayer n.state
    let child := MCTSNode.new g nextState (some action) (some currentPlayer) (n.depth + 1)
    some (n.withChildrenUnexpanded (n.children ++ [child])
      (swapRemove n.unexpandedActions actionIndex))

end MCTSNode

/-- `NodePoolStats` from `tree.rs`. -/
structure NodePoolStats where
  totalCreated : ℕ
  totalAllocations : ℕ
  totalRecycled : ℕ
deriving DecidableEq, Repr

/-- `NodePool` from `tree.rs`.  The free list is a stack: Rust pushes
and pops at the end of the `Vec`; we keep the stack top at the head of
the list. -/
structure NodePool (S A P : Type) where
  templateState : S
  freeNodes : List (MCTSNode S A P)
  stats : NodePoolStats

namespace NodePool

variable {S A P : Type}

/-- `NodePool::create_node` from `tree.rs`: count the allocation; if a
free node is available, pop it and overwrite every field (the
refurbished node's counters are zeroed, its prior reset, its children
cleared, and state/action/player/depth/unexpanded-actions replaced);
otherwise count a creation and build a fresh node. -/
def create_node (g : GameIface S A P) (p : NodePool S A P) (state : S)
    (action : Option A) (parentPlayer : Option P) (depth : ℕ) :
    MCTSNode S A P × NodePool S A P :=
  let stats1 := { p.stats with totalAllocations := p.stats.totalAllocations + 1 }
  match p.freeNodes with
  | [] =>
    (MCTSNode.new g state action parentPlayer depth,
     { p with stats := { stats1 with totalCreated := stats1.totalCreated + 1 } })
  | _node :: rest =>
    let player := parentPlayer.getD (g.currentPlayer state)
    let legalActions := g.legalActions state
    -- every field of the popped node `_node` is overwritten: counters and
    -- prior reset, `children` cleared, the rest replaced by the arguments
    let refurbished : MCTSNode S A P :=
      .mk state action StatCounters.zero (float_to_scaled_u64 1) [] legalActions
        depth player
    (refurbished, { p with freeNodes := rest, stats := stats1 })

/-- `NodePool::available_nodes`. -/
def available_nodes (p : NodePool S A P) : ℕ := p.freeNodes.length

/-- `impl Clone for NodePool` (`tree.rs`): the template state and the
statistics are copied, the free list is deliberately not shared and the
clone starts with an empty one. -/
def clone (p : NodePool S A P) : NodePool S A P :=
  { templateState := p.templateState, freeNodes := [], stats := p.stats }

end NodePool

namespace MCTSNode

variable {S A P : Type}

/-- `MCTSNode::expand_with_pool` from `tree.rs`: as `expand`, but the
child is obtained from the pool. -/
def expand_with_pool (g : GameIface S A P) (n : MCTSNode S A P) (actionIndex : ℕ)
    (pool : NodePool S A P) : Option (MCTSNode S A P × NodePool S A P) :=
  match n.unexpandedActions.get? actionIndex with
  | none => none
  | some action =>
    let nextState := g.applyAction n.state action
    let currentPlayer := g.currentPlayer n.state
    let (child, pool') :=
      pool.create_node g nextState (some action) (some currentPlayer) (n.depth + 1)
    some (n.withChildrenUnexpanded (n.children ++ [child])
      (swapRemove n.unexpandedActions actionIndex), pool')

end MCTSNode

/-- An `f64` value as compared by the selection loops: either a finite
value (modelled exactly as a rational), `f64::INFINITY`, or
`f64::NEG_INFINITY`. -/
inductive XRat : Type where
  | negInf : XRat
  | fin (q : ℚ) : XRat
  | posInf : XRat
deriving DecidableEq, Repr

/-- The strict `>` comparison of the selection loops, written as
`XRat.blt a b` for `b > a`.  As with `f64`, an infinity is not greater
than itself. -/
def XRat.blt : XRat → XRat → Bool
  | .negInf, .negInf => false
  | .negInf, _ => true
  | .fin _, .negInf => false
  | .fin a, .fin b => a < b
  | .fin _, .posInf => true
  | .posInf, _ => false

/-- `UCB1Policy::ucb1_value` from `selection.rs`: `f64::INFINITY` for an
unvisited child, otherwise `value + C * sqrt(ln(parent_visits) /
child_visits)`.  `rsqrt` and `rlog` stand for `f64::sqrt` and
`f64::ln`; the formula is stated for arbitrary such functions. -/
def ucb1_value (explorationConstant : ℚ) (rsqrt rlog : ℚ → ℚ)
    (childValue : ℚ) (childVisits parentVisits : ℕ) : XRat :=
  if childVisits = 0 then .posInf
  else
    .fin (childValue +
      explorationConstant * rsqrt (rlog (parentVisits : ℚ) / (childVisits : ℚ)))

/-- The scan of `UCB1Policy::select_child`: `i` is the index of the head
of `l` in the full children list, `best`/`bestIdx` the running maximum
(strict `>` updates). -/
def ucb1SelectGo {S A P : Type} (c₀ : ℚ) (rsqrt rlog : ℚ → ℚ) (parentVisits : ℕ) :
    List (MCTSNode S A P) → ℕ → XRat → ℕ → ℕ
  | [], _, _, bestIdx => bestIdx
  | c :: rest, i, best, bestIdx =>
    let ucbValue := ucb1_value c₀ rsqrt rlog c.value c.visits parentVisits
    if best.blt ucbValue then ucb1SelectGo c₀ rsqrt rlog parentVisits rest (i + 1) ucbValue i
    else ucb1SelectGo c₀ rsqrt rlog parentVisits rest (i + 1) best bestIdx

/-- `UCB1Policy::select_child` from `selection.rs`. -/
def ucb1SelectChild {S A P : Type} (c₀ : ℚ) (rsqrt rlog : ℚ → ℚ)
    (node : MCTSNode S A P) : ℕ :=
  if node.children.isEmpty then 0
  else ucb1SelectGo c₀ rsqrt rlog node.visits node.children 0 .negInf 0

/-- The per-child `f64` value computed inside the loop of
`UCB1TunedPolicy::select_child` for a visited child (the source returns
early on an unvisited one): `value + C * e * min(0.25, V + e)` with
`e = sqrt(ln(N)/n)` and `V = sum_squared/n - value^2`. -/
def ucb1TunedValue (explorationConstant : ℚ) (rsqrt rlog : ℚ → ℚ)
    {S A P : Type} (parentVisits : ℕ) (c : MCTSNode S A P) : ℚ :=
  let avgReward := c.value
  let sumSquared := c.sum_squared_reward
  let variance := sumSquared / (c.visits : ℚ) - avgReward * avgReward
  let explorationTerm := rsqrt (rlog (parentVisits : ℚ) / (c.visits : ℚ))
  let upperBoundVariance := variance + explorationTerm
  let minVariance := min (1 / 4 : ℚ) upperBoundVariance
  let exploration := explorationConstant * explorationTerm * minVariance
  c.value + exploration

/-- The scan of `UCB1TunedPolicy::select_child`, including the early
`return i` on the first unvisited child. -/
def ucb1TunedGo {S A P : Type} (c₀ : ℚ) (rsqrt rlog : ℚ → ℚ) (parentVisits : ℕ) :
    List (MCTSNode S A P) → ℕ → XRat → ℕ → ℕ
  | [], _, _, bestIdx => bestIdx
  | c :: rest, i, best, bestIdx =>
    if c.visits = 0 then i
    else
      let ucbValue : XRat := .fin (ucb1TunedValue c₀ rsqrt rlog parentVisits c)
      if best.blt ucbValue then ucb1TunedGo c₀ rsqrt rlog parentVisits rest (i + 1) ucbValue i
      else ucb1TunedGo c₀ rsqrt rlog parentVisits rest (i + 1) best bestIdx

/-- `UCB1TunedPolicy::select_child` from `selection.rs`. -/
def ucb1TunedSelectChild {S A P : Type} (c₀ : ℚ) (rsqrt rlog : ℚ → ℚ)
    (node : MCTSNode S A P) : ℕ :=
  if node.children.isEmpty then 0
  else ucb1TunedGo c₀ rsqrt rlog node.visits node.children 0 .negInf 0

/-- The per-child `f64` value of `PUCTPolicy::select_child` for a
visited child: `value + C * prior * sqrt(parent_visits) / (1 + n)`. -/
def puctValue (explorationConstant : ℚ) (rsqrt : ℚ → ℚ)
    {S A P : Type} (parentVisits : ℕ) (c : MCTSNode S A P) : ℚ :=
  c.value + explorationConstant * c.prior * rsqrt (parentVisits : ℚ) /
    (1 + (c.visits : ℚ))

/-- The scan of `PUCTPolicy::select_child`, including the early
`return i` on the first unvisited child. -/
def puctGo {S A P : Type} (c₀ : ℚ) (rsqrt : ℚ → ℚ) (parentVisits : ℕ) :
    List (MCTSNode S A P) → ℕ → XRat → ℕ → ℕ
  | [], _, _, bestIdx => bestIdx
  | c :: rest, i, best, bestIdx =>
    if c.visits = 0 then i
    else
      let puctVal : XRat := .fin (puctValue c₀ rsqrt parentVisits c)
      if best.blt puctVal then puctGo c₀ rsqrt parentVisits rest (i + 1) puctVal i
      else puctGo c₀ rsqrt parentVisits rest (i + 1) best bestIdx

/-- `PUCTPolicy::select_child` from `selection.rs`. -/
def puctSelectChild {S A P : Type} (c₀ : ℚ) (rsqrt : ℚ → ℚ)
    (node : MCTSNode S A P) : ℕ :=
  if node.children.isEmpty then 0
  else puctGo c₀ rsqrt node.visits node.children 0 .negInf 0

/-- `StandardPolicy::update_stats` from `backpropagation.rs`. -/
def standardUpdateStats {S A P : Type} (n : MCTSNode S A P) (result : ℚ) :
    MCTSNode S A P :=
  ((n.increment_visits).add_reward result).add_squared_reward result

/-- `RavePolicy::update_stats` from `backpropagation.rs`: the standard
update always happens; the RAVE counters are touched only when a trace
is supplied, the node has an inbound action, and some traced action has
the same id.  The policy's `rave_weight` field is never read here. -/
def raveUpdateStats {S A P : Type} (g : GameIface S A P) (n : MCTSNode S A P)
    (result : ℚ) (trace : Option (List A)) : MCTSNode S A P :=
  let n1 := ((n.increment_visits).add_reward result).add_squared_reward result
  match trace, n1.action with
  | some tr, some nodeAction =>
    if tr.any (fun a => g.actionId a == g.actionId nodeAction) then
      (n1.increment_rave_visits).add_rave_reward result
    else n1
  | _, _ => n1

/-- Splitting a `drop` at a cons cell: the head sits at index `i` of the
full list and the tail is the next drop. -/
theorem drop_eq_cons_split {α : Type} {full : List α} {i : ℕ} {c : α}
    {rest : List α} (h : full.drop i = c :: rest) :
    full[i]? = some c ∧ rest = full.drop (i + 1) := by
  constructor
  · have h0 : (full.drop i)[0]? = some c := by rw [h]; simp
    rwa [List.getElem?_drop, Nat.add_zero] at h0
  · have h1 : full.drop (i + 1) = (full.drop i).drop 1 := by
      rw [List.drop_drop, Nat.add_comm]
    rw [h1, h]
    rfl

/-- Loop invariant for the UCB1 scan: if the running best is infinite it
already points at an unvisited child, and either an unvisited child
remains ahead or the best is infinite; then the scan lands on an
unvisited child. -/
theorem ucb1SelectGo_unvisited {S A P : Type} (c₀ : ℚ) (rsqrt rlog : ℚ → ℚ)
    (parentVisits : ℕ) (full : List (MCTSNode S A P)) :
    ∀ (l : List (MCTSNode S A P)) (i : ℕ) (best : XRat) (bestIdx : ℕ),
      l = full.drop i →
      (best = .posInf → ∃ c, full[bestIdx]? = some c ∧ c.visits = 0) →
      ((∃ c ∈ l, c.visits = 0) ∨ best = .posInf) →
      ∃ c, full[ucb1SelectGo c₀ rsqrt rlog parentVisits l i best bestIdx]? = some c ∧
        c.visits = 0
  | [], i, best, bestIdx, _, hinv, hdisj => by
    have hbest : best = .posInf := by
      rcases hdisj with ⟨c, hc, _⟩ | h
      · exact absurd hc (List.not_mem_nil c)
      · exact h
    exact hinv hbest
  | c :: rest, i, best, bestIdx, hdrop, hinv, hdisj => by
    obtain ⟨hget, hrest⟩ := drop_eq_cons_split hdrop.symm
    by_cases hv : c.visits = 0
    · -- the head is unvisited: its UCB value is `+infinity`
      have hval : ucb1_value c₀ rsqrt rlog c.value c.visits parentVisits = .posInf := by
        simp [ucb1_value, hv]
      cases best with
      | posInf =>
        simpa [ucb1SelectGo, hval, XRat.blt] using
          ucb1SelectGo_unvisited c₀ rsqrt rlog parentVisits full rest (i + 1) .posInf
            bestIdx hrest hinv (Or.inr rfl)
      | negInf =>
        simpa [ucb1SelectGo, hval, XRat.blt] using
          ucb1SelectGo_unvisited c₀ rsqrt rlog parentVisits full rest (i + 1) .posInf i
            hrest (fun _ => ⟨c, hget, hv⟩) (Or.inr rfl)
      | fin q =>
        simpa [ucb1SelectGo, hval, XRat.blt] using
          ucb1SelectGo_unvisited c₀ rsqrt rlog parentVisits full rest (i + 1) .posInf i
            hrest (fun _ => ⟨c, hget, hv⟩) (Or.inr rfl)
    · -- the head is visited: its UCB value is finite
      have hval : ∃ q, ucb1_value c₀ rsqrt rlog c.value c.visits parentVisits = .fin q := by
        simp [ucb1_value, hv]
      obtain ⟨q, hq⟩ := hval
      have hdisj' : (∃ d ∈ rest, d.visits = 0) ∨ best = .posInf := by
        rcases hdisj with ⟨d, hd, hdv⟩ | h
        · rcases List.mem_cons.mp hd with rfl | hd'
          · exact absurd hdv hv
          · exact Or.inl ⟨d, hd', hdv⟩
        · exact Or.inr h
      cases best with
      | posInf =>
        simpa [ucb1SelectGo, hq, XRat.blt] using
          ucb1SelectGo_unvisited c₀ rsqrt rlog parentVisits full rest (i + 1) .posInf
            bestIdx hrest hinv (Or.inr rfl)
      | negInf =>
        simpa [ucb1SelectGo, hq, XRat.blt] using
          ucb1SelectGo_unvisited c₀ rsqrt rlog parentVisits full rest (i + 1) (.fin q) i
            hrest (by intro h; cases h) (by
              rcases hdisj' with h | h
              · exact Or.inl h
              · cases h)
      | fin b =>
        have hd' : (∃ d ∈ rest, d.visits = 0) := by
          rcases hdisj' with h | h
          · exact h
          · cases h
        by_cases hlt : b < q
        · simpa [ucb1SelectGo, hq, XRat.blt, hlt] using
            ucb1SelectGo_unvisited c₀ rsqrt rlog parentVisits full rest (i + 1) (.fin q) i
              hrest (by intro h; cases h) (Or.inl hd')
        · simpa [ucb1SelectGo, hq, XRat.blt, hlt] using
            ucb1SelectGo_unvisited c₀ rsqrt rlog parentVisits full rest (i + 1) (.fin b)
              bestIdx hrest (by intro h; cases h) (Or.inl hd')

/-- The UCB1-Tuned scan returns the index of an unvisited child whenever
one remains ahead of the scan position. -/
theorem ucb1TunedGo_unvisited {S A P : Type} (c₀ : ℚ) (rsqrt rlog : ℚ → ℚ)
    (parentVisits : ℕ) (full : List (MCTSNode S A P)) :
    ∀ (l : List (MCTSNode S A P)) (i : ℕ) (best : XRat) (bestIdx : ℕ),
      l = full.drop i →
      (∃ c ∈ l, c.visits = 0) →
      ∃ c, full[ucb1TunedGo c₀ rsqrt rlog parentVisits l i best bestIdx]? = some c ∧
        c.visits = 0
  | [], i, best, bestIdx, _, hex => by
    obtain ⟨c, hc, _⟩ := hex
    exact absurd hc (List.not_mem_nil c)
  | c :: rest, i, best, bestIdx, hdrop, hex => by
    obtain ⟨hget, hrest⟩ := drop_eq_cons_split hdrop.symm
    by_cases hv : c.visits = 0
    · exact ⟨c, by simpa [ucb1TunedGo, hv] using hget, hv⟩
    · have hex' : ∃ d ∈ rest, d.visits = 0 := by
        obtain ⟨d, hd, hdv⟩ := hex
        rcases List.mem_cons.mp hd with rfl | hd'
        · exact absurd hdv hv
        · exact ⟨d, hd', hdv⟩
      by_cases hb :
          best.blt (.fin (ucb1TunedValue c₀ rsqrt rlog parentVisits c)) = true
      · simpa [ucb1TunedGo, hv, hb] using
          ucb1TunedGo_unvisited c₀ rsqrt rlog parentVisits full rest (i + 1)
            (.fin (ucb1TunedValue c₀ rsqrt rlog parentVisits c)) i hrest hex'
      · simpa [ucb1TunedGo, hv, hb] using
          ucb1TunedGo_unvisited c₀ rsqrt rlog parentVisits full rest (i + 1) best
            bestIdx hrest hex'

/-- The PUCT scan returns the index of an unvisited child whenever one
remains ahead of the scan position. -/
theorem puctGo_unvisited {S A P : Type} (c₀ : ℚ) (rsqrt : ℚ → ℚ)
    (parentVisits : ℕ) (full : List (MCTSNode S A P)) :
    ∀ (l : List (MCTSNode S A P)) (i : ℕ) (best : XRat) (bestIdx : ℕ),
      l = full.drop i →
      (∃ c ∈ l, c.visits = 0) →
      ∃ c, full[puctGo c₀ rsqrt parentVisits l i best bestIdx]? = some c ∧
        c.visits = 0
  | [], i, best, bestIdx, _, hex => by
    obtain ⟨c, hc, _⟩ := hex
    exact absurd hc (List.not_mem_nil c)
  | c :: rest, i, best, bestIdx, hdrop, hex => by
    obtain ⟨hget, hrest⟩ := drop_eq_cons_split hdrop.symm
    by_cases hv : c.visits = 0
    · exact ⟨c, by simpa [puctGo, hv] using hget, hv⟩
    · have hex' : ∃ d ∈ rest, d.visits = 0 := by
        obtain ⟨d, hd, hdv⟩ := hex
        rcases List.mem_cons.mp hd with rfl | hd'
        · exact absurd hdv hv
        · exact ⟨d, hd', hdv⟩
      by_cases hb : best.blt (.fin (puctValue c₀ rsqrt parentVisits c)) = true
      · simpa [puctGo, hv, hb] using
          puctGo_unvisited c₀ rsqrt parentVisits full rest (i + 1)
            (.fin (puctValue c₀ rsqrt parentVisits c)) i hrest hex'
      · simpa [puctGo, hv, hb] using
          puctGo_unvisited c₀ rsqrt parentVisits full rest (i + 1) best bestIdx
            hrest hex'

/-- C1.  For every node with at least one child, if any child is
unvisited (`visits() == 0`) then `select_child` of each of the three
selection policies — UCB1, UCB1-Tuned and PUCT — returns the index of an
unvisited child, for every exploration constant and every valuation of
the `sqrt`/`ln` functions (hence regardless of the visited siblings'
values). -/
theorem selection_policies_prefer_unvisited {S A P : Type}
    (c₀ c₁ c₂ : ℚ) (rsqrt₀ rlog₀ rsqrt₁ rlog₁ rsqrt₂ : ℚ → ℚ)
    (node : MCTSNode S A P) (h : ∃ c ∈ node.children, c.visits = 0) :
    (∃ c, node.children[ucb1SelectChild c₀ rsqrt₀ rlog₀ node]? = some c ∧
      c.visits = 0) ∧
    (∃ c, node.children[ucb1TunedSelectChild c₁ rsqrt₁ rlog₁ node]? = some c ∧
      c.visits = 0) ∧
    (∃ c, node.children[puctSelectChild c₂ rsqrt₂ node]? = some c ∧
      c.visits = 0) := by
  have hne : node.children.isEmpty = false := by
    obtain ⟨c, hc, _⟩ := h
    cases hch : node.children with
    | nil => rw [hch] at hc; exact absurd hc (List.not_mem_nil c)
    | cons a l => rfl
  refine ⟨?_, ?_, ?_⟩
  · rw [ucb1SelectChild, if_neg (by simp [hne])]
    exact ucb1SelectGo_unvisited c₀ rsqrt₀ rlog₀ node.visits node.children
      node.children 0 .negInf 0 (by simp) (by intro hc; cases hc) (Or.inl h)
  · rw [ucb1TunedSelectChild, if_neg (by simp [hne])]
    exact ucb1TunedGo_unvisited c₁ rsqrt₁ rlog₁ node.visits node.children
      node.children 0 .negInf 0 (by simp) h
  · rw [puctSelectChild, if_neg (by simp [hne])]
    exact puctGo_unvisited c₂ rsqrt₂ node.visits node.children
      node.children 0 .negInf 0 (by simp) h

/-- A visited example child: value `0.9` over 50 visits. -/
def exVisitedChild : MCTSNode ℕ ℕ ℕ :=
  .mk 1 (some 1) ⟨50, 45000000, 45000000, 0, 0⟩ 1000000 [] [] 1 0

/-- An unvisited example child. -/
def exUnvisitedChild : MCTSNode ℕ ℕ ℕ :=
  .mk 2 (some 2) ⟨0, 0, 0, 0, 0⟩ 1000000 [] [] 1 0

/-- An example parent with one visited and one unvisited child. -/
def exParentC1 : MCTSNode ℕ ℕ ℕ :=
  .mk 0 none ⟨50, 0, 0, 0, 0⟩ 1000000 [exVisitedChild, exUnvisitedChild] [] 0 0

/-- Witness for C1 at a concrete node (spec scenario: one visited child
with value 0.9 and 50 visits, one unvisited child), with exploration
constant `1.414` and the identity in place of `sqrt`/`ln`. -/
theorem selection_policies_prefer_unvisited_witness :
    (∃ c, exParentC1.children[ucb1SelectChild (707 / 500) id id exParentC1]? =
      some c ∧ c.visits = 0) ∧
    (∃ c, exParentC1.children[ucb1TunedSelectChild (707 / 500) id id exParentC1]? =
      some c ∧ c.visits = 0) ∧
    (∃ c, exParentC1.children[puctSelectChild (707 / 500) id exParentC1]? =
      some c ∧ c.visits = 0) :=
  selection_policies_prefer_unvisited (707 / 500) (707 / 500) (707 / 500)
    id id id id id exParentC1
    ⟨exUnvisitedChild, by simp [exParentC1], rfl⟩

/-- C10.  Cloning a `NodePool` never shares nodes: the clone's free list
is empty (`available_nodes() == 0`) while the template state and the
cumulative statistics are copied from the original.  (`clone` is a pure
function of the original pool, which it does not modify.) -/
theorem nodePool_clone_spec {S A P : Type} (p : NodePool S A P) :
    p.clone.freeNodes = [] ∧ p.clone.available_nodes = 0 ∧
    p.clone.templateState = p.templateState ∧ p.clone.stats = p.stats :=
  ⟨rfl, rfl, rfl, rfl⟩

/-- C8.  When the free list is non-empty, `NodePool::create_node`
refurbishes a pooled node into a node structurally (hence
observationally) equal to `MCTSNode::new` on the same arguments. -/
theorem create_node_equals_new {S A P : Type} (g : GameIface S A P)
    (p : NodePool S A P) (state : S) (action : Option A)
    (parentPlayer : Option P) (depth : ℕ) (h : p.freeNodes ≠ []) :
    (p.create_node g state action parentPlayer depth).1 =
      MCTSNode.new g state action parentPlayer depth := by
  obtain ⟨t, f, st⟩ := p
  cases f with
  | nil => exact absurd rfl h
  | cons n rest => rfl

/-- An example game on natural numbers: state `0` has two legal actions,
every other state is terminal. -/
def exGame : GameIface ℕ ℕ ℕ where
  legalActions := fun s => if s = 0 then [10, 11] else []
  applyAction := fun s a => s + a
  isTerminal := fun s => s != 0
  currentPlayer := fun s => s % 2
  actionId := fun a => a

/-- An example pool holding one free node. -/
def exPoolC8 : NodePool ℕ ℕ ℕ where
  templateState := 0
  freeNodes := [.mk 3 (some 10) ⟨7, 5, 5, 1, 1⟩ 500000 [] [10] 2 1]
  stats := ⟨1, 1, 1⟩

/-- Witness for C8: refurbishing the free node of `exPoolC8` yields
exactly the node `MCTSNode::new` builds. -/
theorem create_node_equals_new_witness :
    (exPoolC8.create_node exGame 0 (some 3) none 2).1 =
      MCTSNode.new exGame 0 (some 3) none 2 :=
  create_node_equals_new exGame exPoolC8 0 (some 3) none 2 (by simp [exPoolC8])

/-- `swap_remove` removes exactly one element from a non-empty list. -/
theorem swapRemove_length {α : Type} (l : List α) (i : ℕ) (h : l ≠ []) :
    (swapRemove l i).length + 1 = l.length := by
  rcases hl : l.getLast? with _ | last
  · rw [List.getLast?_eq_none_iff] at hl
    exact absurd hl h
  · have hpos : 0 < l.length := List.length_pos.mpr h
    simp only [swapRemove, hl, List.length_dropLast, List.length_set]
    omega

/-- C6.  A fresh node's `children.len() + unexpanded_actions.len()`
equals the number of legal actions at creation time, and both
`expand(i)` and `expand_with_pool(i, pool)` with `i` in bounds move
exactly one action out of `unexpanded_actions` into exactly one new
child (carrying the removed action), keeping that sum; with `i` out of
bounds both return `None` and touch nothing. -/
theorem expand_moves_one_action {S A P : Type} (g : GameIface S A P)
    (n : MCTSNode S A P) (pool : NodePool S A P) (i : ℕ)
    (s : S) (a : Option A) (pp : Option P) (d : ℕ) :
    ((MCTSNode.new g s a pp d).children.length +
        (MCTSNode.new g s a pp d).unexpandedActions.length =
      (g.legalActions s).length) ∧
    (i < n.unexpandedActions.length →
      ∃ n', n.expand g i = some n' ∧
        n'.children.length = n.children.length + 1 ∧
        n'.unexpandedActions.length + 1 = n.unexpandedActions.length ∧
        n'.children.length + n'.unexpandedActions.length =
          n.children.length + n.unexpandedActions.length ∧
        (∃ c, n'.children.getLast? = some c ∧
          c.action = n.unexpandedActions.get? i)) ∧
    (n.unexpandedActions.length ≤ i → n.expand g i = none) ∧
    (i < n.unexpandedActions.length →
      ∃ n' pool', n.expand_with_pool g i pool = some (n', pool') ∧
        n'.children.length = n.children.length + 1 ∧
        n'.unexpandedActions.length + 1 = n.unexpandedActions.length ∧
        n'.children.length + n'.unexpandedActions.length =
          n.children.length + n.unexpandedActions.length) ∧
    (n.unexpandedActions.length ≤ i → n.expand_with_pool g i pool = none) := by
  have hne_of_lt : i < n.unexpandedActions.length → n.unexpandedActions ≠ [] := by
    intro hi hnil
    rw [hnil] at hi
    exact absurd hi (by simp)
  refine ⟨by simp [MCTSNode.new], ?_, ?_, ?_, ?_⟩
  · intro hi
    obtain ⟨act, hact⟩ :
        ∃ act, n.unexpandedActions.get? i = some act :=
      ⟨n.unexpandedActions.get ⟨i, hi⟩, List.get?_eq_some.mpr ⟨hi, rfl⟩⟩
    rw [List.get?_eq_getElem?] at hact
    refine ⟨n.withChildrenUnexpanded
      (n.children ++ [MCTSNode.new g (g.applyAction n.state act) (some act)
        (some (g.currentPlayer n.state)) (n.depth + 1)])
      (swapRemove n.unexpandedActions i), ?_, ?_, ?_, ?_, ?_⟩
    · simp [MCTSNode.expand, hact]
    · simp
    · simpa using swapRemove_length n.unexpandedActions i (hne_of_lt hi)
    · have := swapRemove_length n.unexpandedActions i (hne_of_lt hi)
      simp only [MCTSNode.withChildrenUnexpanded_children,
        MCTSNode.withChildrenUnexpanded_unexpandedActions, List.length_append,
        List.length_singleton]
      omega
    · refine ⟨MCTSNode.new g (g.applyAction n.state act) (some act)
        (some (g.currentPlayer n.state)) (n.depth + 1), ?_, ?_⟩
      · simp [List.getLast?_concat]
      · rw [List.get?_eq_getElem?, hact]
        simp [MCTSNode.new]
  · intro hi
    have hact : n.unexpandedActions.get? i = none := List.get?_eq_none.mpr hi
    rw [List.get?_eq_getElem?] at hact
    simp [MCTSNode.expand, hact]
  · intro hi
    obtain ⟨act, hact⟩ :
        ∃ act, n.unexpandedActions.get? i = some act :=
      ⟨n.unexpandedActions.get ⟨i, hi⟩, List.get?_eq_some.mpr ⟨hi, rfl⟩⟩
    rw [List.get?_eq_getElem?] at hact
    refine ⟨n.withChildrenUnexpanded
      (n.children ++ [(pool.create_node g (g.applyAction n.state act) (some act)
        (some (g.currentPlayer n.state)) (n.depth + 1)).1])
      (swapRemove n.unexpandedActions i),
      (pool.create_node g (g.applyAction n.state act) (some act)
        (some (g.currentPlayer n.state)) (n.depth + 1)).2, ?_, ?_, ?_, ?_⟩
    · simp [MCTSNode.expand_with_pool, hact]
    · simp
    · simpa using swapRemove_length n.unexpandedActions i (hne_of_lt hi)
    · have := swapRemove_length n.unexpandedActions i (hne_of_lt hi)
      simp only [MCTSNode.withChildrenUnexpanded_children,
        MCTSNode.withChildrenUnexpanded_unexpandedActions, List.length_append,
        List.length_singleton]
      omega
  · intro hi
    have hact : n.unexpandedActions.get? i = none := List.get?_eq_none.mpr hi
    rw [List.get?_eq_getElem?] at hact
    simp [MCTSNode.expand_with_pool, hact]

/-- A fresh example root over `exGame` (two unexpanded actions). -/
def exRootC6 : MCTSNode ℕ ℕ ℕ := MCTSNode.new exGame 0 none none 0

/-- Witness for C6: expanding `exRootC6` (two unexpanded actions) at
index 0 succeeds and keeps the action count, while index 5 is rejected,
for both `expand` and `expand_with_pool`. -/
theorem expand_moves_one_action_witness :
    (∃ n', exRootC6.expand exGame 0 = some n' ∧
      n'.children.length = exRootC6.children.length + 1 ∧
      n'.unexpandedActions.length + 1 = exRootC6.unexpandedActions.length ∧
      n'.children.length + n'.unexpandedActions.length =
        exRootC6.children.length + exRootC6.unexpandedActions.length ∧
      (∃ c, n'.children.getLast? = some c ∧
        c.action = exRootC6.unexpandedActions.get? 0)) ∧
    exRootC6.expand exGame 5 = none ∧
    (∃ n' pool', exRootC6.expand_with_pool exGame 0 exPoolC8 = some (n', pool') ∧
      n'.children.length = exRootC6.children.length + 1 ∧
      n'.unexpandedActions.length + 1 = exRootC6.unexpandedActions.length ∧
      n'.children.length + n'.unexpandedActions.length =
        exRootC6.children.length + exRootC6.unexpandedActions.length) ∧
    exRootC6.expand_with_pool exGame 5 exPoolC8 = none :=
  ⟨(expand_moves_one_action exGame exRootC6 exPoolC8 0 0 none none 0).2.1
      (by decide),
   (expand_moves_one_action exGame exRootC6 exPoolC8 5 0 none none 0).2.2.1
      (by decide),
   (expand_moves_one_action exGame exRootC6 exPoolC8 0 0 none none 0).2.2.2.1
      (by decide),
   (expand_moves_one_action exGame exRootC6 exPoolC8 5 0 none none 0).2.2.2.2
      (by decide)⟩

/-- The condition under which `RavePolicy::update_stats` touches the
RAVE counters: a trace is supplied, the node has an inbound action, and
some traced action has the same id. -/
def raveMatchCond {S A P : Type} (g : GameIface S A P) (n : MCTSNode S A P)
    (trace : Option (List A)) : Prop :=
  ∃ tr a, trace = some tr ∧ n.action = some a ∧ ∃ b ∈ tr, g.actionId b = g.actionId a

/-- C7.  `RavePolicy::update_stats` always increments `visits` and adds
the (fixed-point encoded) result to `total_reward` and its square to
`sum_squared_reward`; it increments `rave_visits` and adds to
`rave_reward` exactly when a trace is supplied and the node's inbound
action id occurs among the traced action ids, and leaves both RAVE
counters unchanged otherwise. -/
theorem rave_update_stats_spec {S A P : Type} (g : GameIface S A P)
    (n : MCTSNode S A P) (result : ℚ) (trace : Option (List A)) :
    (raveUpdateStats g n result trace).stats.visits =
      (n.stats.visits + 1) % u64Mod ∧
    (raveUpdateStats g n result trace).stats.totalReward =
      (n.stats.totalReward + float_to_scaled_u64 result) % u64Mod ∧
    (raveUpdateStats g n result trace).stats.sumSquaredReward =
      (n.stats.sumSquaredReward + float_to_scaled_u64 (result * result)) % u64Mod ∧
    (raveMatchCond g n trace →
      (raveUpdateStats g n result trace).stats.raveVisits =
        (n.stats.raveVisits + 1) % u64Mod ∧
      (raveUpdateStats g n result trace).stats.raveReward =
        (n.stats.raveReward + float_to_scaled_u64 result) % u64Mod) ∧
    (¬ raveMatchCond g n trace →
      (raveUpdateStats g n result trace).stats.raveVisits = n.stats.raveVisits ∧
      (raveUpdateStats g n result trace).stats.raveReward = n.stats.raveReward) := by
  have haction :
      (((n.increment_visits).add_reward result).add_squared_reward result).action =
        n.action := by
    simp [MCTSNode.increment_visits, MCTSNode.add_reward, MCTSNode.add_squared_reward]
  rcases trace with _ | tr
  · refine ⟨?_, ?_, ?_, ?_, ?_⟩ <;>
      simp [raveUpdateStats, MCTSNode.increment_visits, MCTSNode.add_reward,
        MCTSNode.add_squared_reward, raveMatchCond]
  · rcases hna : n.action with _ | na
    · refine ⟨?_, ?_, ?_, ?_, ?_⟩ <;>
        simp [raveUpdateStats, haction, hna, MCTSNode.increment_visits,
          MCTSNode.add_reward, MCTSNode.add_squared_reward, raveMatchCond]
    · by_cases hmatch : tr.any (fun a => g.actionId a == g.actionId na) = true
      · have hcond : raveMatchCond g n (some tr) := by
          obtain ⟨b, hb, hid⟩ := List.any_eq_true.mp hmatch
          exact ⟨tr, na, rfl, hna, b, hb, by simpa using hid⟩
        refine ⟨?_, ?_, ?_, fun _ => ?_, fun hc => absurd hcond hc⟩ <;>
          simp [raveUpdateStats, haction, hna, hmatch, MCTSNode.increment_visits,
            MCTSNode.add_reward, MCTSNode.add_squared_reward,
            MCTSNode.increment_rave_visits, MCTSNode.add_rave_reward]
      · have hcond : ¬ raveMatchCond g n (some tr) := by
          rintro ⟨tr', a, htr, hna', b, hb, hid⟩
          obtain rfl : tr' = tr := by injection htr with h; exact h.symm
          rw [hna] at hna'
          obtain rfl : a = na := by injection hna' with h; exact h.symm
          exact hmatch (List.any_eq_true.mpr ⟨b, hb, by simpa using hid⟩)
        refine ⟨?_, ?_, ?_, fun hc => absurd hc hcond, fun _ => ?_⟩ <;>
          simp [raveUpdateStats, haction, hna, hmatch, MCTSNode.increment_visits,
            MCTSNode.add_reward, MCTSNode.add_squared_reward]

/-- An example node with inbound action id 3 and non-zero RAVE counters. -/
def exNodeC7 : MCTSNode ℕ ℕ ℕ :=
  .mk 0 (some 3) ⟨2, 100, 100, 1, 50⟩ 1000000 [] [] 1 0

/-- Witness for C7: a trace containing the node's action id updates the
RAVE counters; an absent trace leaves them unchanged. -/
theorem rave_update_stats_spec_witness :
    ((raveUpdateStats exGame exNodeC7 (1 / 2) (some [9, 3])).stats.raveVisits =
        (exNodeC7.stats.raveVisits + 1) % u64Mod ∧
      (raveUpdateStats exGame exNodeC7 (1 / 2) (some [9, 3])).stats.raveReward =
        (exNodeC7.stats.raveReward + float_to_scaled_u64 (1 / 2)) % u64Mod) ∧
    ((raveUpdateStats exGame exNodeC7 (1 / 2) none).stats.raveVisits =
        exNodeC7.stats.raveVisits ∧
      (raveUpdateStats exGame exNodeC7 (1 / 2) none).stats.raveReward =
        exNodeC7.stats.raveReward) :=
  ⟨(rave_update_stats_spec exGame exNodeC7 (1 / 2) (some [9, 3])).2.2.2.1
      ⟨[9, 3], 3, rfl, rfl, 3, by simp, rfl⟩,
   (rave_update_stats_spec exGame exNodeC7 (1 / 2) none).2.2.2.2
      (by rintro ⟨tr, a, htr, _⟩; cases htr)⟩

/-- The UCB1-Tuned child value as written in the spec (and in the
source's own comment at `selection.rs:144`):
`value + C*sqrt(ln(N)/n)*min(0.25, V + sqrt(2*ln(N)/n))` with
`V = sum_squared/n - value^2`.  This is the claimed formula, kept
separate from `ucb1TunedValue`, which embeds what the code computes. -/
def ucb1TunedSpecValue (explorationConstant : ℚ) (rsqrt rlog : ℚ → ℚ)
    {S A P : Type} (parentVisits : ℕ) (c : MCTSNode S A P) : ℚ :=
  let avgReward := c.value
  let variance := c.sum_squared_reward / (c.visits : ℚ) - avgReward * avgReward
  c.value + explorationConstant * rsqrt (rlog (parentVisits : ℚ) / (c.visits : ℚ)) *
    min (1 / 4 : ℚ) (variance + rsqrt (2 * rlog (parentVisits : ℚ) / (c.visits : ℚ)))

/-- First-index argmax of a rational-valued function over a children
list, with the same strict-greater scan as the selection loops. -/
def firstArgmaxGo {S A P : Type} (f : MCTSNode S A P → ℚ) :
    List (MCTSNode S A P) → ℕ → XRat → ℕ → ℕ
  | [], _, _, bestIdx => bestIdx
  | c :: rest, i, best, bestIdx =>
    if best.blt (.fin (f c)) then firstArgmaxGo f rest (i + 1) (.fin (f c)) i
    else firstArgmaxGo f rest (i + 1) best bestIdx

/-- The first index maximizing `f` on `l`. -/
def firstArgmax {S A P : Type} (f : MCTSNode S A P → ℚ)
    (l : List (MCTSNode S A P)) : ℕ :=
  firstArgmaxGo f l 0 .negInf 0

/-- A rational stand-in for `f64::sqrt`, agreeing with the real square
root to five decimal places at the two arguments that occur in the
divergence example below (`sqrt(0.052983) = 0.230180...` and
`sqrt(0.105966) = 0.325524...`). -/
def sqrtTable (q : ℚ) : ℚ :=
  if q = 52983 / 1000000 then 23018 / 100000
  else if q = 105966 / 1000000 then 32552 / 100000
  else 0

/-- A rational stand-in for `f64::ln`, agreeing with the real logarithm
to four decimal places at the one argument that occurs in the
divergence example below (`ln(200) = 5.29831...`). -/
def logTable (q : ℚ) : ℚ :=
  if q = 200 then 52983 / 10000 else 0

/-- Divergence child 0: 100 visits, value `0.5`, variance `0`. -/
def exChildA : MCTSNode ℕ ℕ ℕ :=
  .mk 1 (some 1) ⟨100, 50000000, 25000000, 0, 0⟩ 1000000 [] [] 1 0

/-- Divergence child 1: 100 visits, value `0.495`, variance `0.04`. -/
def exChildB : MCTSNode ℕ ℕ ℕ :=
  .mk 2 (some 2) ⟨100, 49500000, 28502500, 0, 0⟩ 1000000 [] [] 1 0

/-- Divergence parent: 200 visits, fully expanded, two visited children. -/
def exParentC3 : MCTSNode ℕ ℕ ℕ :=
  .mk 0 none ⟨200, 0, 0, 0, 0⟩ 1000000 [exChildA, exChildB] [] 0 0

/-- C3 (code bug evidence).  On a fully-expanded parent with 200 visits
and two children with 100 visits each, `UCB1TunedPolicy::select_child`
(which uses `min(0.25, V + sqrt(ln(N)/n))`) picks child 1, while the
first index maximizing the formula claimed by the spec and by the
source's own comment (`min(0.25, V + sqrt(2*ln(N)/n))`) is child 0.
The `sqrt`/`ln` tables agree with the real functions to at least four
decimal places at every argument used, and all margins exceed `10^-3`,
so `f64` arithmetic selects the same indices. -/
theorem ucb1Tuned_formula_divergence :
    ucb1TunedSelectChild (707 / 500) sqrtTable logTable exParentC3 = 1 ∧
    firstArgmax
      (ucb1TunedSpecValue (707 / 500) sqrtTable logTable exParentC3.visits)
      exParentC3.children = 0 := by
  constructor
  · norm_num [ucb1TunedSelectChild, exParentC3, exChildA, exChildB, ucb1TunedGo,
      ucb1TunedValue, XRat.blt, MCTSNode.value, MCTSNode.visits,
      MCTSNode.total_reward, MCTSNode.sum_squared_reward, scaled_u64_to_float,
      rewardScale, sqrtTable, logTable]
  · norm_num [firstArgmax, firstArgmaxGo, exParentC3, exChildA, exChildB,
      ucb1TunedSpecValue, XRat.blt, MCTSNode.value, MCTSNode.visits,
      MCTSNode.total_reward, MCTSNode.sum_squared_reward, scaled_u64_to_float,
      rewardScale, sqrtTable, logTable]

/-- The reward value one `add_reward` call actually records, as the
claim describes it: negatives clamped to `0`, magnitude capped at the
largest encodable fixed-point value `u64::MAX / 2`. -/
def clampReward (r : ℚ) : ℚ :=
  min (max r 0) (((u64Max / 2 : ℕ) : ℚ) / rewardScale)

/-- Record a list of simulation results at a node the way every
backpropagation policy does: one `increment_visits` and one
`add_reward` per result. -/
def recordRewards {S A P : Type} (n : MCTSNode S A P) (rs : List ℚ) :
    MCTSNode S A P :=
  rs.foldl (fun m r => (m.increment_visits).add_reward r) n

/-- The fixed-point encoding of one reward is the clamped reward scaled
up, within one unit below (the truncation of the `as u64` cast). -/
theorem float_to_scaled_bounds (r : ℚ) :
    (float_to_scaled_u64 r : ℚ) ≤ clampReward r * rewardScale ∧
    clampReward r * rewardScale ≤ (float_to_scaled_u64 r : ℚ) + 1 := by
  have hscale : (0 : ℚ) < rewardScale := by norm_num [rewardScale]
  set y : ℚ := max (r * rewardScale) 0 with hy
  have hy0 : (0 : ℚ) ≤ y := le_max_right _ _
  have hfloor0 : (0 : ℤ) ≤ ⌊y⌋ := Int.floor_nonneg.mpr hy0
  set K : ℕ := u64Max / 2 with hK
  have hclamp : clampReward r * rewardScale = min y ((K : ℚ)) := by
    rw [clampReward, min_mul_of_nonneg _ _ (le_of_lt hscale),
      max_mul_of_nonneg _ _ (le_of_lt hscale), zero_mul,
      div_mul_cancel₀ _ (ne_of_gt hscale)]
  have htonat : ((⌊y⌋.toNat : ℕ) : ℚ) = ((⌊y⌋ : ℤ) : ℚ) := by
    exact_mod_cast congrArg (Int.cast : ℤ → ℚ) (Int.toNat_of_nonneg hfloor0)
  have hcast : ((float_to_scaled_u64 r : ℕ) : ℚ) = min ((⌊y⌋ : ℚ)) ((K : ℚ)) := by
    rw [float_to_scaled_u64, ← hy, ← hK, Nat.cast_min, htonat]
  constructor
  · rw [hcast, hclamp]
    exact min_le_min (Int.floor_le y) le_rfl
  · rw [hcast, hclamp]
    have h1 : y ≤ (⌊y⌋ : ℚ) + 1 := le_of_lt (Int.lt_floor_add_one y)
    calc min y ((K : ℚ)) ≤ min ((⌊y⌋ : ℚ) + 1) ((K : ℚ) + 1) :=
          min_le_min h1 (by linarith)
      _ = min ((⌊y⌋ : ℚ)) ((K : ℚ)) + 1 := min_add_add_right _ _ _

/-- Summed over a reward list, the recorded fixed-point values stay
within the list length below the summed scaled clamped rewards. -/
theorem recorded_sum_bounds (rs : List ℚ) :
    ((rs.map float_to_scaled_u64).sum : ℚ) ≤
      (rs.map clampReward).sum * rewardScale ∧
    (rs.map clampReward).sum * rewardScale ≤
      ((rs.map float_to_scaled_u64).sum : ℚ) + rs.length := by
  induction rs with
  | nil => simp
  | cons r rest ih =>
    obtain ⟨h1, h2⟩ := float_to_scaled_bounds r
    obtain ⟨ih1, ih2⟩ := ih
    constructor
    · simp only [List.map_cons, List.sum_cons, add_mul]
      push_cast at ih1 ih2 ⊢
      linarith
    · simp only [List.map_cons, List.sum_cons, List.length_cons, add_mul]
      push_cast at ih1 ih2 ⊢
      linarith

/-- Counter evolution of `recordRewards`: starting below the wrap
modulus, the visit counter accumulates the count and the total-reward
counter the sum of the fixed-point encodings, modulo `2^64`. -/
theorem recordRewards_stats {S A P : Type} :
    ∀ (rs : List ℚ) (n : MCTSNode S A P),
      n.stats.visits < u64Mod → n.stats.totalReward < u64Mod →
      (recordRewards n rs).stats.visits = (n.stats.visits + rs.length) % u64Mod ∧
      (recordRewards n rs).stats.totalReward =
        (n.stats.totalReward + (rs.map float_to_scaled_u64).sum) % u64Mod
  | [], n, hv, ht => by
    simp [recordRewards, Nat.mod_eq_of_lt hv, Nat.mod_eq_of_lt ht]
  | r :: rest, n, hv, ht => by
    have hM : 0 < u64Mod := by norm_num [u64Mod]
    have hstep : recordRewards n (r :: rest) =
        recordRewards ((n.increment_visits).add_reward r) rest := by
      simp [recordRewards]
    have hv1 : ((n.increment_visits).add_reward r).stats.visits =
        (n.stats.visits + 1) % u64Mod := by
      simp [MCTSNode.increment_visits, MCTSNode.add_reward]
    have ht1 : ((n.increment_visits).add_reward r).stats.totalReward =
        (n.stats.totalReward + float_to_scaled_u64 r) % u64Mod := by
      simp [MCTSNode.increment_visits, MCTSNode.add_reward]
    obtain ⟨ih1, ih2⟩ := recordRewards_stats rest ((n.increment_visits).add_reward r)
      (by rw [hv1]; exact Nat.mod_lt _ hM) (by rw [ht1]; exact Nat.mod_lt _ hM)
    rw [hstep]
    constructor
    · rw [ih1, hv1, Nat.mod_add_mod, List.length_cons]
      congr 1
      omega
    · rw [ih2, ht1, Nat.mod_add_mod, List.map_cons, List.sum_cons]
      congr 1
      omega

/-- C5.  `value()` is exactly `0.0` on an unvisited node; and after
`n >= 1` results are recorded (one visit increment and one `add_reward`
each, as every backpropagation policy does), `value()` equals the
arithmetic mean of the applied rewards — with negatives clamped to `0`
and each reward capped at the largest encodable fixed-point value —
within the fixed-point truncation error of `1e-6` per addition.  The
two bound hypotheses keep the `u64` accumulators below their `2^64`
wrap-around, which holds throughout for rewards in the documented
`[0, 1]` range. -/
theorem value_zero_unvisited_and_mean {S A P : Type} (n : MCTSNode S A P)
    (rs : List ℚ) (hv0 : n.stats.visits = 0) (ht0 : n.stats.totalReward = 0)
    (hrs : rs ≠ []) (hsum : (rs.map float_to_scaled_u64).sum < u64Mod)
    (hlen : rs.length < u64Mod) :
    n.value = 0 ∧
    |(recordRewards n rs).value -
        (rs.map clampReward).sum / (rs.length : ℚ)| ≤ 1 / 1000000 := by
  constructor
  · simp [MCTSNode.value, MCTSNode.visits, hv0]
  · obtain ⟨hst1, hst2⟩ := recordRewards_stats rs n
      (by rw [hv0]; norm_num [u64Mod]) (by rw [ht0]; norm_num [u64Mod])
    have hvisits : (recordRewards n rs).stats.visits = rs.length := by
      rw [hst1, hv0, Nat.zero_add, Nat.mod_eq_of_lt hlen]
    have htotal : (recordRewards n rs).stats.totalReward =
        (rs.map float_to_scaled_u64).sum := by
      rw [hst2, ht0, Nat.zero_add, Nat.mod_eq_of_lt hsum]
    have hlen0 : rs.length ≠ 0 := fun h => hrs (List.length_eq_zero.mp h)
    have hLpos : (0 : ℚ) < (rs.length : ℚ) := by
      exact_mod_cast Nat.pos_of_ne_zero hlen0
    have hvalue : (recordRewards n rs).value =
        (((rs.map float_to_scaled_u64).sum : ℚ) / rewardScale) / (rs.length : ℚ) := by
      rw [MCTSNode.value, if_neg (by rw [MCTSNode.visits, hvisits]; exact hlen0),
        MCTSNode.total_reward, scaled_u64_to_float, htotal, MCTSNode.visits, hvisits]
    obtain ⟨hb1, hb2⟩ := recorded_sum_bounds rs
    rw [hvalue, div_sub_div_same, abs_div, abs_of_pos hLpos, div_le_iff₀ hLpos,
      abs_le]
    have hscale : rewardScale = (1000000 : ℚ) := by norm_num [rewardScale]
    rw [hscale] at hb1 hb2
    rw [hscale]
    constructor
    · linarith
    · linarith

/-- Each recorded fixed-point value is capped at `u64::MAX / 2`. -/
theorem float_to_scaled_le (r : ℚ) : float_to_scaled_u64 r ≤ u64Max / 2 :=
  min_le_right _ _

/-- A fresh example node with all counters zero. -/
def exNodeC5 : MCTSNode ℕ ℕ ℕ := .mk 0 none ⟨0, 0, 0, 0, 0⟩ 1000000 [] [] 0 0

/-- Witness for C5: recording the rewards `1/2` and `1/4` at a fresh
node leaves the value within `1e-6` of their mean, and the fresh node
itself reports value `0`. -/
theorem value_zero_unvisited_and_mean_witness :
    exNodeC5.value = 0 ∧
    |(recordRewards exNodeC5 [1 / 2, 1 / 4]).value -
        (([1 / 2, 1 / 4] : List ℚ).map clampReward).sum /
          ((([1 / 2, 1 / 4] : List ℚ).length : ℕ) : ℚ)| ≤ 1 / 1000000 :=
  value_zero_unvisited_and_mean exNodeC5 [1 / 2, 1 / 4] rfl rfl (by simp)
    (by
      have h1 := float_to_scaled_le (1 / 2 : ℚ)
      have h2 := float_to_scaled_le (1 / 4 : ℚ)
      simp only [List.map_cons, List.map_nil, List.sum_cons, List.sum_nil,
        add_zero]
      norm_num [u64Mod, u64Max] at h1 h2 ⊢
      omega)
    (by norm_num [u64Mod])

/-- `MCTSError` from `lib.rs`. -/
inductive MCTSError : Type where
  | noLegalActions
  | searchStopped (reason : String)
  | invalidConfiguration (reason : String)
deriving DecidableEq

/-- `BestChildCriteria` from `config.rs`. -/
inductive BestChildCriteria : Type where
  | mostVisits
  | highestValue
deriving DecidableEq

/-- The selection phase (`MCTS::selection` in `mcts.rs`): starting at
the root, descend into the policy's chosen child while the current node
is non-terminal, fully expanded and has children, recording the child
indices.  The source indexes `children[best_child_idx]` directly (a
panic if the policy returned an out-of-range index); the embedding
stops there instead.  The source's in-loop break re-tests the loop
conditions and is subsumed by the guard. -/
def selectionGo {S A P : Type} (g : GameIface S A P)
    (sel : MCTSNode S A P → ℕ) (n : MCTSNode S A P) : List ℕ :=
  if g.isTerminal n.state = false ∧ n.is_fully_expanded = true ∧
      n.is_leaf = false then
    match _hc : n.children.get? (sel n) with
    | some c => sel n :: selectionGo g sel c
    | none => []
  else []
termination_by sizeOf n
decreasing_by
  have hm : c ∈ n.children := List.get?_mem _hc
  have h1 := List.sizeOf_lt_of_mem hm
  cases n with
  | mk s a st p ch u d pl => simp [MCTSNode.children] at h1 ⊢; omega

/-- The expansion phase (`MCTS::expansion` in `mcts.rs`): re-walk the
path; at the stopping node a terminal state or an empty unexpanded list
leaves the tree unchanged and the node's own state is re-simulated;
otherwise a random in-bounds index — modelled as `pick % len`, which
ranges over exactly the indices the source's RNG produces — is
expanded, and the new child's (the last child's) state is returned.
The source also returns the extended `expanded_path`, which its only
caller discards; the embedding returns an expansion flag in its place.
Out-of-range path indices (a panic in the source) stop the walk. -/
def expansionGo {S A P : Type} (g : GameIface S A P) (pick : ℕ) :
    MCTSNode S A P → List ℕ → MCTSNode S A P × Bool × S
  | n, [] =>
    if g.isTerminal n.state then (n, false, n.state)
    else if n.unexpandedActions.isEmpty then (n, false, n.state)
    else
      let actionIndex := pick % n.unexpandedActions.length
      match n.expand g actionIndex with
      | some n' =>
        match n'.children.getLast? with
        | some child => (n', true, child.state)
        | none => (n', true, n'.state)
      | none => (n, false, n.state)
  | n, i :: rest =>
    match n.children.get? i with
    | none => (n, false, n.state)
    | some c =>
      let r := expansionGo g pick c rest
      (n.withChildren (n.children.set i r.1), r.2.1, r.2.2)

/-- One application of the backpropagation policy's `update_stats`.
The policy is abstracted as a counter transformer reading the node;
this shape covers the Standard, Weighted and RAVE policies shipped with
the engine, all of which write only the statistic counters. -/
def applyBp {S A P : Type} (bp : MCTSNode S A P → ℚ → StatCounters)
    (result : ℚ) (n : MCTSNode S A P) : MCTSNode S A P :=
  n.withStats (bp n result)

/-- The walk of `MCTS::backpropagation` along the path: descend and
update each node reached.  Out-of-range indices (a panic in the source)
stop the walk. -/
def backpropGo {S A P : Type} (bp : MCTSNode S A P → ℚ → StatCounters)
    (result : ℚ) : MCTSNode S A P → List ℕ → MCTSNode S A P
  | n, [] => n
  | n, i :: rest =>
    match n.children.get? i with
    | none => n
    | some c =>
      n.withChildren (n.children.set i (backpropGo bp result (applyBp bp result c) rest))

/-- `MCTS::backpropagation`: update the root first, then every node
along the path. -/
def backpropagation {S A P : Type} (bp : MCTSNode S A P → ℚ → StatCounters)
    (result : ℚ) (n : MCTSNode S A P) (path : List ℕ) : MCTSNode S A P :=
  backpropGo bp result (applyBp bp result n) path

/-- `MCTS::execute_iteration`: selection, expansion (whose returned
extended path the source ignores), simulation of the returned state,
and backpropagation along the SELECTED path. -/
def executeIteration {S A P : Type} (g : GameIface S A P)
    (sel : MCTSNode S A P → ℕ) (sim : S → ℚ)
    (bp : MCTSNode S A P → ℚ → StatCounters) (pick : ℕ)
    (root : MCTSNode S A P) : MCTSNode S A P :=
  let selectedPath := selectionGo g sel root
  let er := expansionGo g pick root selectedPath
  let result := sim er.2.2
  backpropagation bp result er.1 selectedPath

/-- The main loop of `search_for_iterations` (no time limit: `max_time`
is modelled as unset; statistics are not modelled). -/
def iterateSearch {S A P : Type} (g : GameIface S A P)
    (sel : MCTSNode S A P → ℕ) (sim : S → ℚ)
    (bp : MCTSNode S A P → ℚ → StatCounters) (picks : ℕ → ℕ) :
    ℕ → MCTSNode S A P → MCTSNode S A P
  | 0, n => n
  | k + 1, n =>
    iterateSearch g sel sim bp picks k (executeIteration g sel sim bp (picks k) n)

/-- The `MostVisits` scan of `select_best_action` (strict `>`,
first-seen tie-break, starting at `best_visits = 0, best_index = 0`). -/
def mostVisitsGo {S A P : Type} : List (MCTSNode S A P) → ℕ → ℕ → ℕ → ℕ
  | [], _, _, bestIdx => bestIdx
  | c :: rest, i, bestVisits, bestIdx =>
    if bestVisits < c.visits then mostVisitsGo rest (i + 1) c.visits i
    else mostVisitsGo rest (i + 1) bestVisits bestIdx

/-- The `HighestValue` scan of `select_best_action` (strict `>` against
an initial `f64::NEG_INFINITY`). -/
def highestValueGo {S A P : Type} : List (MCTSNode S A P) → ℕ → XRat → ℕ → ℕ
  | [], _, _, bestIdx => bestIdx
  | c :: rest, i, best, bestIdx =>
    if best.blt (.fin c.value) then highestValueGo rest (i + 1) (.fin c.value) i
    else highestValueGo rest (i + 1) best bestIdx

/-- `MCTS::select_best_action` from `mcts.rs`: with no children, the
first unexpanded action if any, else `NoLegalActions`; otherwise the
configured scan picks a child and its stored action is returned
(`ok_or(NoLegalActions)` when that child has no action).  The
out-of-range `children[best_index]` access cannot occur — the scans
return in-range indices — and is mapped to the same error. -/
def selectBestAction {S A P : Type} (crit : BestChildCriteria)
    (n : MCTSNode S A P) : Except MCTSError A :=
  if n.is_leaf then
    match n.unexpandedActions with
    | [] => .error .noLegalActions
    | a :: _ => .ok a
  else
    let bestIdx :=
      match crit with
      | .mostVisits => mostVisitsGo n.children 0 0 0
      | .highestValue => highestValueGo n.children 0 .negInf 0
    match n.children.get? bestIdx with
    | none => .error .noLegalActions
    | some c =>
      match c.action with
      | some a => .ok a
      | none => .error .noLegalActions

/-- `MCTS::search_for_iterations` (the statistics object and the
optional wall-clock limit are not modelled; the final tree is returned
alongside the result). -/
def searchForIterations {S A P : Type} (g : GameIface S A P)
    (sel : MCTSNode S A P → ℕ) (sim : S → ℚ)
    (bp : MCTSNode S A P → ℚ → StatCounters) (picks : ℕ → ℕ)
    (crit : BestChildCriteria) (iterations : ℕ) (root : MCTSNode S A P) :
    MCTSNode S A P × Except MCTSError A :=
  if root.unexpandedActions.isEmpty ∧ root.is_leaf then
    (root, .error .noLegalActions)
  else
    let final := iterateSearch g sel sim bp picks iterations root
    (final, selectBestAction crit final)

/-- Engine invariant: every child of the node carries an inbound action
(children are only ever created by expansion, which stores one). -/
def goodActions {S A P : Type} (n : MCTSNode S A P) : Prop :=
  ∀ c ∈ n.children, c.action ≠ none

/-- A successful `expand` appends exactly one child, which carries an
action, and leaves the node's own action alone. -/
theorem expand_spec {S A P : Type} {g : GameIface S A P}
    {n n' : MCTSNode S A P} {i : ℕ} (h : n.expand g i = some n') :
    n'.children.length = n.children.length + 1 ∧ n'.action = n.action ∧
    ∀ c ∈ n'.children, c ∈ n.children ∨ c.action ≠ none := by
  cases hg : n.unexpandedActions.get? i with
  | none => simp only [MCTSNode.expand, hg] at h; cases h
  | some act =>
    simp only [MCTSNode.expand, hg, Option.some.injEq] at h
    subst h
    refine ⟨by simp, by simp, ?_⟩
    intro c hcmem
    rw [MCTSNode.withChildrenUnexpanded_children, List.mem_append] at hcmem
    rcases hcmem with hold | hnew
    · exact Or.inl hold
    · right
      rw [List.mem_singleton] at hnew
      subst hnew
      simp [MCTSNode.new]

/-- The expansion phase never changes the node's own action. -/
theorem expansionGo_action {S A P : Type} (g : GameIface S A P) (pick : ℕ) :
    ∀ (path : List ℕ) (n : MCTSNode S A P),
      (expansionGo g pick n path).1.action = n.action
  | [], n => by
    rw [expansionGo]
    by_cases ht : g.isTerminal n.state
    · simp [ht]
    · by_cases hu : n.unexpandedActions.isEmpty
      · simp [ht, hu]
      · simp only [ht, hu, if_false, Bool.false_eq_true]
        cases he : n.expand g (pick % n.unexpandedActions.length) with
        | none => simp [he]
        | some n' =>
          obtain ⟨-, ha, -⟩ := expand_spec he
          cases hl : n'.children.getLast? <;> simp [he, hl, ha]
  | i :: rest, n => by
    rw [expansionGo]
    cases hc : n.children.get? i with
    | none => simp
    | some c => simp

/-- If the expansion phase returns a childless tree, it did nothing. -/
theorem expansionGo_children_nil {S A P : Type} (g : GameIface S A P) (pick : ℕ) :
    ∀ (path : List ℕ) (n : MCTSNode S A P),
      (expansionGo g pick n path).1.children = [] →
      (expansionGo g pick n path).1 = n
  | [], n => by
    rw [expansionGo]
    by_cases ht : g.isTerminal n.state
    · simp [ht]
    · by_cases hu : n.unexpandedActions.isEmpty
      · simp [ht, hu]
      · simp only [ht, hu, if_false, Bool.false_eq_true]
        cases he : n.expand g (pick % n.unexpandedActions.length) with
        | none => simp [he]
        | some n' =>
          obtain ⟨hlen, -, -⟩ := expand_spec he
          cases hl : n'.children.getLast? with
          | none =>
            intro hnil
            simp only [he, hl] at hnil
            rw [hnil, List.length_nil] at hlen
            omega
          | some child =>
            intro hnil
            simp only [he, hl] at hnil
            rw [hnil, List.length_nil] at hlen
            omega
  | i :: rest, n => by
    rw [expansionGo]
    cases hc : n.children.get? i with
    | none => simp
    | some c =>
      intro hnil
      simp only at hnil
      exfalso
      have hlen : (n.children.set i
          (expansionGo g pick c rest).1).length = n.children.length := by
        simp
      have hpos : 0 < n.children.length := by
        cases hch : n.children with
        | nil => rw [hch] at hc; cases hc
        | cons a l => simp [hch]
      rw [MCTSNode.withChildren_children] at hnil
      rw [hnil] at hlen
      simp at hlen
      omega

/-- The expansion phase preserves the child-action invariant. -/
theorem expansionGo_good {S A P : Type} (g : GameIface S A P) (pick : ℕ) :
    ∀ (path : List ℕ) (n : MCTSNode S A P),
      goodActions n → goodActions (expansionGo g pick n path).1
  | [], n => by
    intro hgood
    rw [expansionGo]
    by_cases ht : g.isTerminal n.state
    · simpa [ht] using hgood
    · by_cases hu : n.unexpandedActions.isEmpty
      · simpa [ht, hu] using hgood
      · simp only [ht, hu, if_false, Bool.false_eq_true]
        cases he : n.expand g (pick % n.unexpandedActions.length) with
        | none => simpa [he] using hgood
        | some n' =>
          obtain ⟨-, -, hmem⟩ := expand_spec he
          have hgood' : goodActions n' := by
            intro c hcmem
            rcases hmem c hcmem with hold | hact
            · exact hgood c hold
            · exact hact
          cases hl : n'.children.getLast? <;> simpa [he, hl] using hgood'
  | i :: rest, n => by
    intro hgood
    rw [expansionGo]
    cases hc : n.children.get? i with
    | none => simpa using hgood
    | some c =>
      intro c' hc'
      simp only [MCTSNode.withChildren_children] at hc'
      rcases List.mem_or_eq_of_mem_set hc' with hold | hnew
      · exact hgood c' hold
      · rw [hnew, expansionGo_action g pick rest c]
        exact hgood c (List.get?_mem hc)

/-- The backpropagation walk only rewrites statistic counters: actions,
children counts and unexpanded actions are untouched. -/
theorem backpropGo_frame {S A P : Type} (bp : MCTSNode S A P → ℚ → StatCounters)
    (result : ℚ) :
    ∀ (path : List ℕ) (n : MCTSNode S A P),
      (backpropGo bp result n path).action = n.action ∧
      (backpropGo bp result n path).children.length = n.children.length ∧
      (backpropGo bp result n path).unexpandedActions = n.unexpandedActions
  | [], n => ⟨rfl, rfl, rfl⟩
  | i :: rest, n => by
    rw [backpropGo]
    cases hc : n.children.get? i with
    | none => exact ⟨rfl, rfl, rfl⟩
    | some c => simp

/-- The backpropagation walk preserves the child-action invariant. -/
theorem backpropGo_good {S A P : Type} (bp : MCTSNode S A P → ℚ → StatCounters)
    (result : ℚ) :
    ∀ (path : List ℕ) (n : MCTSNode S A P),
      goodActions n → goodActions (backpropGo bp result n path)
  | [], n => fun h => h
  | i :: rest, n => by
    intro hgood
    rw [backpropGo]
    cases hc : n.children.get? i with
    | none => exact hgood
    | some c =>
      intro c' hc'
      simp only [MCTSNode.withChildren_children] at hc'
      rcases List.mem_or_eq_of_mem_set hc' with hold | hnew
      · exact hgood c' hold
      · rw [hnew, (backpropGo_frame bp result rest (applyBp bp result c)).1,
          applyBp, MCTSNode.withStats_action]
        exact hgood c (List.get?_mem hc)

/-- An `execute_iteration` that ends with a childless root did not touch
the tree structure: the root had no children before and its unexpanded
actions are unchanged. -/
theorem executeIteration_children_nil {S A P : Type} (g : GameIface S A P)
    (sel : MCTSNode S A P → ℕ) (sim : S → ℚ)
    (bp : MCTSNode S A P → ℚ → StatCounters) (pick : ℕ) (n : MCTSNode S A P)
    (h : (executeIteration g sel sim bp pick n).children = []) :
    n.children = [] ∧
    (executeIteration g sel sim bp pick n).unexpandedActions =
      n.unexpandedActions := by
  rw [executeIteration] at h ⊢
  set path := selectionGo g sel n with hpath
  set er := expansionGo g pick n path with her
  obtain ⟨-, hlen, hunex⟩ :=
    backpropGo_frame bp (sim er.2.2) path (applyBp bp (sim er.2.2) er.1)
  rw [backpropagation] at h ⊢
  have h0 : (applyBp bp (sim er.2.2) er.1).children.length = 0 := by
    rw [← hlen, h]; rfl
  rw [applyBp, MCTSNode.withStats_children] at h0
  have her_nil : er.1.children = [] := List.length_eq_zero.mp h0
  have hfix : er.1 = n := expansionGo_children_nil g pick path n her_nil
  constructor
  · rw [← hfix, her_nil]
  · rw [hunex, applyBp, MCTSNode.withStats_unexpandedActions, hfix]

/-- `execute_iteration` preserves the child-action invariant. -/
theorem executeIteration_good {S A P : Type} (g : GameIface S A P)
    (sel : MCTSNode S A P → ℕ) (sim : S → ℚ)
    (bp : MCTSNode S A P → ℚ → StatCounters) (pick : ℕ) (n : MCTSNode S A P)
    (hgood : goodActions n) :
    goodActions (executeIteration g sel sim bp pick n) := by
  rw [executeIteration, backpropagation]
  apply backpropGo_good
  intro c hc
  rw [applyBp, MCTSNode.withStats_children] at hc
  exact expansionGo_good g pick (selectionGo g sel n) n hgood c hc

/-- The iteration loop: a childless final root means the root never had
children and keeps its unexpanded actions. -/
theorem iterateSearch_children_nil {S A P : Type} (g : GameIface S A P)
    (sel : MCTSNode S A P → ℕ) (sim : S → ℚ)
    (bp : MCTSNode S A P → ℚ → StatCounters) (picks : ℕ → ℕ) :
    ∀ (k : ℕ) (n : MCTSNode S A P),
      (iterateSearch g sel sim bp picks k n).children = [] →
      n.children = [] ∧
      (iterateSearch g sel sim bp picks k n).unexpandedActions =
        n.unexpandedActions
  | 0, n => fun h => ⟨h, rfl⟩
  | k + 1, n => by
    intro h
    rw [iterateSearch] at h ⊢
    obtain ⟨h1, h2⟩ := iterateSearch_children_nil g sel sim bp picks k _ h
    obtain ⟨h3, h4⟩ := executeIteration_children_nil g sel sim bp (picks k) n h1
    exact ⟨h3, by rw [h2, h4]⟩

/-- The iteration loop preserves the child-action invariant. -/
theorem iterateSearch_good {S A P : Type} (g : GameIface S A P)
    (sel : MCTSNode S A P → ℕ) (sim : S → ℚ)
    (bp : MCTSNode S A P → ℚ → StatCounters) (picks : ℕ → ℕ) :
    ∀ (k : ℕ) (n : MCTSNode S A P),
      goodActions n → goodActions (iterateSearch g sel sim bp picks k n)
  | 0, _ => fun h => h
  | k + 1, n => fun h => by
    rw [iterateSearch]
    exact iterateSearch_good g sel sim bp picks k _
      (executeIteration_good g sel sim bp (picks k) n h)

/-- The `MostVisits` scan returns an in-range index. -/
theorem mostVisitsGo_lt {S A P : Type} (full : List (MCTSNode S A P)) :
    ∀ (l : List (MCTSNode S A P)) (i bv bi : ℕ),
      l = full.drop i → bi < full.length →
      mostVisitsGo l i bv bi < full.length
  | [], _, _, _, _, hbi => hbi
  | c :: rest, i, bv, bi, hdrop, hbi => by
    obtain ⟨hget, hrest⟩ := drop_eq_cons_split hdrop.symm
    have hi : i < full.length := by
      rcases List.getElem?_eq_some.mp hget with ⟨h, -⟩
      exact h
    rw [mostVisitsGo]
    by_cases hlt : bv < c.visits
    · simp only [hlt, if_true]
      exact mostVisitsGo_lt full rest (i + 1) c.visits i hrest hi
    · simp only [hlt, if_false]
      exact mostVisitsGo_lt full rest (i + 1) bv bi hrest hbi

/-- The `HighestValue` scan returns an in-range index. -/
theorem highestValueGo_lt {S A P : Type} (full : List (MCTSNode S A P)) :
    ∀ (l : List (MCTSNode S A P)) (i : ℕ) (best : XRat) (bi : ℕ),
      l = full.drop i → bi < full.length →
      highestValueGo l i best bi < full.length
  | [], _, _, _, _, hbi => hbi
  | c :: rest, i, best, bi, hdrop, hbi => by
    obtain ⟨hget, hrest⟩ := drop_eq_cons_split hdrop.symm
    have hi : i < full.length := by
      rcases List.getElem?_eq_some.mp hget with ⟨h, -⟩
      exact h
    rw [highestValueGo]
    by_cases hlt : best.blt (.fin c.value) = true
    · simp only [hlt, if_true]
      exact highestValueGo_lt full rest (i + 1) (.fin c.value) i hrest hi
    · simp only [hlt, if_false]
      exact highestValueGo_lt full rest (i + 1) best bi hrest hbi

/-- With children present and the child-action invariant,
`select_best_action` always returns an action. -/
theorem selectBestAction_ok {S A P : Type} (crit : BestChildCriteria)
    (n : MCTSNode S A P) (hne : n.children ≠ []) (hgood : goodActions n) :
    ∃ a, selectBestAction crit n = Except.ok a := by
  have hleaf : n.is_leaf = false := by
    rw [MCTSNode.is_leaf]
    cases hch : n.children with
    | nil => exact absurd hch hne
    | cons a l => rfl
  have hpos : 0 < n.children.length := List.length_pos.mpr hne
  have hlt : (match crit with
      | .mostVisits => mostVisitsGo n.children 0 0 0
      | .highestValue => highestValueGo n.children 0 .negInf 0) <
      n.children.length := by
    cases crit with
    | mostVisits => exact mostVisitsGo_lt n.children n.children 0 0 0 (by simp) hpos
    | highestValue =>
      exact highestValueGo_lt n.children n.children 0 .negInf 0 (by simp) hpos
  obtain ⟨c, hget⟩ : ∃ c, n.children.get? (match crit with
      | .mostVisits => mostVisitsGo n.children 0 0 0
      | .highestValue => highestValueGo n.children 0 .negInf 0) = some c :=
    ⟨_, List.get?_eq_some.mpr ⟨hlt, rfl⟩⟩
  have hmem : c ∈ n.children := List.get?_mem hget
  obtain ⟨a, ha⟩ : ∃ a, c.action = some a := by
    cases hca : c.action with
    | none => exact absurd hca (hgood c hmem)
    | some a => exact ⟨a, rfl⟩
  refine ⟨a, ?_⟩
  rw [selectBestAction.eq_def, hleaf]
  simp only [Bool.false_eq_true, if_false]
  rw [hget]
  simp [ha]

/-- C2.  `search_for_iterations` returns the error `NoLegalActions`
exactly when the root starts with no children and an empty
unexpanded-action list; and whenever the root still has no children
after the search but a non-empty unexpanded-action list, the first
unexpanded action (index 0) is the returned result.  The hypothesis is
the engine's reachable-state invariant that every pre-existing root
child carries an inbound action (the engine only ever creates children
through expansion, which stores one); `search()` delegates here. -/
theorem search_for_iterations_result_spec {S A P : Type} (g : GameIface S A P)
    (sel : MCTSNode S A P → ℕ) (sim : S → ℚ)
    (bp : MCTSNode S A P → ℚ → StatCounters) (picks : ℕ → ℕ)
    (crit : BestChildCriteria) (iterations : ℕ) (root : MCTSNode S A P)
    (hgood : goodActions root) :
    ((searchForIterations g sel sim bp picks crit iterations root).2 =
        Except.error MCTSError.noLegalActions ↔
      root.children = [] ∧ root.unexpandedActions = []) ∧
    (∀ a : A,
      (searchForIterations g sel sim bp picks crit iterations root).1.children = [] →
      (searchForIterations g sel sim bp picks crit
          iterations root).1.unexpandedActions.get? 0 = some a →
      (searchForIterations g sel sim bp picks crit iterations root).2 =
        Except.ok a) := by
  by_cases hguard : root.unexpandedActions.isEmpty = true ∧ root.is_leaf = true
  · have hu : root.unexpandedActions = [] := List.isEmpty_iff.mp hguard.1
    have hc : root.children = [] := by
      have h2 := hguard.2
      rwa [MCTSNode.is_leaf, List.isEmpty_iff] at h2
    have hres : searchForIterations g sel sim bp picks crit iterations root =
        (root, Except.error MCTSError.noLegalActions) := by
      rw [searchForIterations, if_pos hguard]
    constructor
    · rw [hres]
      simp [hc, hu]
    · intro a h1 h2
      rw [hres] at h2
      simp only at h2
      rw [hu] at h2
      cases h2
  · have hres : searchForIterations g sel sim bp picks crit iterations root =
        (iterateSearch g sel sim bp picks iterations root,
          selectBestAction crit (iterateSearch g sel sim bp picks iterations root)) := by
      rw [searchForIterations, if_neg hguard]
    set final := iterateSearch g sel sim bp picks iterations root with hfinal
    by_cases hfc : final.children = []
    · obtain ⟨hrc, hru⟩ :=
        iterateSearch_children_nil g sel sim bp picks iterations root hfc
      have hrootu : root.unexpandedActions ≠ [] := by
        intro hnil
        exact hguard ⟨by rw [List.isEmpty_iff]; exact hnil,
          by rw [MCTSNode.is_leaf, List.isEmpty_iff]; exact hrc⟩
      have hfinu : final.unexpandedActions ≠ [] := by
        rw [hru]
        exact hrootu
      obtain ⟨a0, l0, hl0⟩ : ∃ a0 l0, final.unexpandedActions = a0 :: l0 := by
        cases h : final.unexpandedActions with
        | nil => exact absurd h hfinu
        | cons x xs => exact ⟨x, xs, rfl⟩
      have hsel : selectBestAction crit final = Except.ok a0 := by
        rw [selectBestAction.eq_def]
        have hlf : final.is_leaf = true := by
          rw [MCTSNode.is_leaf, List.isEmpty_iff]
          exact hfc
        rw [hlf, hl0]
        simp
      constructor
      · rw [hres]
        simp only
        constructor
        · intro habs
          rw [hsel] at habs
          cases habs
        · rintro ⟨-, h2⟩
          exact absurd h2 hrootu
      · intro a h1 h2
        rw [hres] at h2 ⊢
        simp only at h2 ⊢
        rw [hl0] at h2
        simp only [List.get?] at h2
        obtain rfl : a0 = a := by injection h2
        exact hsel
    · have hgoodf : goodActions final :=
        iterateSearch_good g sel sim bp picks iterations root hgood
      obtain ⟨a0, ha0⟩ := selectBestAction_ok crit final hfc hgoodf
      constructor
      · rw [hres]
        simp only
        constructor
        · intro habs
          rw [ha0] at habs
          cases habs
        · rintro ⟨h1, h2⟩
          exact (hguard ⟨by rw [List.isEmpty_iff]; exact h2,
            by rw [MCTSNode.is_leaf, List.isEmpty_iff]; exact h1⟩).elim
      · intro a h1 h2
        rw [hres] at h1
        simp only at h1
        exact absurd h1 hfc

/-- The default prior `1.0` encodes to exactly `1000000`. -/
theorem float_to_scaled_one : float_to_scaled_u64 1 = 1000000 := by
  rw [float_to_scaled_u64]
  norm_num [rewardScale, u64Max]
  rfl

/-- The standard backpropagation policy as a counter transformer, the
shape the engine model consumes. -/
def exBp : MCTSNode ℕ ℕ ℕ → ℚ → StatCounters :=
  fun n r => (standardUpdateStats n r).stats

/-- A fresh engine root over `exGame` (state 0, two legal actions). -/
def exEngineRoot : MCTSNode ℕ ℕ ℕ := MCTSNode.new exGame 0 none none 0

/-- Witness for C2 at a concrete engine: one iteration from a fresh
two-action root. -/
theorem search_for_iterations_result_spec_witness :
    ((searchForIterations exGame (fun _ => 0) (fun _ => (1 : ℚ)) exBp
          (fun _ => 0) .mostVisits 1 exEngineRoot).2 =
        Except.error MCTSError.noLegalActions ↔
      exEngineRoot.children = [] ∧ exEngineRoot.unexpandedActions = []) ∧
    (∀ a : ℕ,
      (searchForIterations exGame (fun _ => 0) (fun _ => (1 : ℚ)) exBp
          (fun _ => 0) .mostVisits 1 exEngineRoot).1.children = [] →
      (searchForIterations exGame (fun _ => 0) (fun _ => (1 : ℚ)) exBp
          (fun _ => 0) .mostVisits 1 exEngineRoot).1.unexpandedActions.get? 0 =
        some a →
      (searchForIterations exGame (fun _ => 0) (fun _ => (1 : ℚ)) exBp
          (fun _ => 0) .mostVisits 1 exEngineRoot).2 = Except.ok a) :=
  search_for_iterations_result_spec exGame (fun _ => 0) (fun _ => (1 : ℚ)) exBp
    (fun _ => 0) .mostVisits 1 exEngineRoot
    (by intro c hc; simp [exEngineRoot, MCTSNode.new] at hc)

/-- One fully evaluated `execute_iteration` from the fresh two-action
root: the selection path is empty, action `10` is expanded into a new
child (prior `1.0`, all counters zero), and backpropagation — walking
only the selected path the source passes it — updates the root alone. -/
theorem exEngineRoot_iteration_eq :
    executeIteration exGame (fun _ => 0) (fun _ => (1 : ℚ)) exBp 0 exEngineRoot =
      .mk 0 none ⟨1, 1000000, 1000000, 0, 0⟩ 1000000
        [.mk 10 (some 10) ⟨0, 0, 0, 0, 0⟩ 1000000 [] [] 1 0] [11] 0 0 := by
  have hpath : selectionGo exGame (fun _ => 0) exEngineRoot = [] := by
    rw [selectionGo]
    simp [exEngineRoot, MCTSNode.new, MCTSNode.is_fully_expanded, exGame]
  simp only [executeIteration, hpath]
  simp [expansionGo, exEngineRoot, MCTSNode.new, exGame, MCTSNode.expand,
    swapRemove, backpropagation, backpropGo, applyBp, exBp, standardUpdateStats,
    MCTSNode.increment_visits, MCTSNode.add_reward, MCTSNode.add_squared_reward,
    MCTSNode.withStats, MCTSNode.withChildrenUnexpanded, StatCounters.zero,
    float_to_scaled_one, u64Mod]

/-- C9 (code bug evidence).  After one iteration that expands a child,
the newly expanded child's visit count is still `0` while the root was
updated once: `execute_iteration` hands `backpropagation` the selection
path, discarding the extended path `expansion` returned, so the update
that the claim (and the spec) require on the newly expanded node never
happens; any shipped policy's update would have made its visits `1`. -/
theorem backprop_misses_expanded_child :
    (executeIteration exGame (fun _ => 0) (fun _ => (1 : ℚ)) exBp 0
        exEngineRoot).children.length = 1 ∧
    ((executeIteration exGame (fun _ => 0) (fun _ => (1 : ℚ)) exBp 0
        exEngineRoot).children.get? 0).map MCTSNode.visits = some 0 ∧
    (executeIteration exGame (fun _ => 0) (fun _ => (1 : ℚ)) exBp 0
        exEngineRoot).visits = 1 := by
  rw [exEngineRoot_iteration_eq]
  exact ⟨rfl, rfl, rfl⟩

/-- The prior computed by
`RandomExpansionPolicy::select_action_to_expand` (`expansion.rs`):
uniform `1 / (children.len() + unexpanded_actions.len())`, `1.0` in the
unreachable zero-total case. -/
def randomExpansionPrior {S A P : Type} (n : MCTSNode S A P) : ℚ :=
  if 0 < n.children.length + n.unexpandedActions.length then
    1 / ((n.children.length + n.unexpandedActions.length : ℕ) : ℚ)
  else 1

/-- C4 (code bug evidence).  Expanding the fresh two-action root leaves
the new child's prior at the default `1.0`, whereas the default
Expansion policy would return the uniform prior `1/2`: the engine's
`expansion` never consults any `ExpansionPolicy` (the `MCTS` struct has
no such field) and never sets the child's prior. -/
theorem expansion_ignores_expansion_policy_prior :
    ((executeIteration exGame (fun _ => 0) (fun _ => (1 : ℚ)) exBp 0
        exEngineRoot).children.get? 0).map MCTSNode.prior = some 1 ∧
    randomExpansionPrior exEngineRoot = 1 / 2 ∧ (1 : ℚ) ≠ 1 / 2 := by
  refine ⟨?_, ?_, by norm_num⟩
  · rw [exEngineRoot_iteration_eq]
    simp [MCTSNode.prior, scaled_u64_to_float, rewardScale]
  · simp [randomExpansionPrior, exEngineRoot, MCTSNode.new, exGame]
